import Mathlib

/-!
Shallow embedding of the multi-server tool router and tool-calling
orchestrator of the `mcp-client` repository (TypeScript sources:
`src/mcp-server.ts`, `src/anthropic-client.ts`, `src/openai-client.ts`,
`src/index.ts`, `src/types.ts`).

JavaScript `Map` objects are modelled as association lists with
insertion-order `set` semantics (overwrite in place, append if absent);
JS strings are Lean `String`s; `async` code is modelled as explicit
state passing, with the model backend represented by a script of
responses consumed one per request and fallible operations returning
`Except`.
-/

namespace MCP

/-- Model of JavaScript `Map.prototype.set`: overwrite an existing key in
place, otherwise append the new entry. -/
def mapSet {β : Type} (m : List (String × β)) (k : String) (v : β) : List (String × β) :=
  if m.any (fun p => p.1 = k) then
    m.map (fun p => if p.1 = k then (k, v) else p)
  else
    m ++ [(k, v)]

/-- Model of JavaScript `Map.prototype.get`. -/
def mapGet {β : Type} (m : List (String × β)) (k : String) : Option β :=
  (m.find? (fun p => p.1 = k)).map Prod.snd

/-- Value stored in `toolServerMap` (`mcp-server.ts`): the owning server id
and the server-local tool name. -/
structure ServerInfo where
  serverId : String
  originalName : String
deriving DecidableEq, Repr

/-- Embedding of the identifier construction in `connectToServers`
(`mcp-server.ts`): `const uniqueToolName = serverId + "_" + tool.name`. -/
def uniqueToolName (serverId toolName : String) : String :=
  serverId ++ "_" ++ toolName

/-- Embedding of the tool-identifier resolution used by both orchestrators
(`anthropic-client.ts` and the OpenAI client): `serverId` starts as the
literal `"default"`, `originalToolName` starts as the identifier, and both
are replaced only when the map lookup succeeds. -/
def resolveTool (toolServerMap : List (String × ServerInfo)) (toolName : String) :
    String × String :=
  match mapGet toolServerMap toolName with
  | some info => (info.serverId, info.originalName)
  | none => ("default", toolName)

/-- One element of a tool result's `content` array: a typed content block.
`text` is `none` when the block has no `text` field (JS `undefined`). -/
structure ContentBlock where
  type : String
  text : Option String
deriving DecidableEq, Repr

/-- A tool result's `content` value as passed around by the OpenAI client:
either a JS array of content blocks or a non-array (primitive) value. -/
inductive ToolContent where
  | arr (blocks : List ContentBlock)
  | prim (s : String)
deriving DecidableEq, Repr

/-- The intermediate array produced by `toolContent.map(c => c.text)`:
each block is mapped to its `text` field, `none` standing for the JS
`undefined` value that a block without a `text` field contributes. -/
def mappedTextFields (blocks : List ContentBlock) : List (Option String) :=
  blocks.map (fun c => c.text)

/-- Model of JavaScript `Array.prototype.join("\n")` on the mapped array:
`undefined` elements are stringified as the empty string. -/
def jsJoinNewline (l : List (Option String)) : String :=
  String.intercalate "\n" (l.map (fun o => o.getD ""))

/-- Embedding of the flattening step of the OpenAI orchestrator
(`openai-client.ts` / `index.ts`): if the content is an array whose first
element has type `"text"`, map every element to its `text` field and join
with newlines; otherwise pass the content through unchanged. -/
def flattenToolContent : ToolContent → ToolContent
  | .arr blocks =>
    if blocks.head?.map ContentBlock.type = some "text" then
      .prim (jsJoinNewline (mappedTextFields blocks))
    else
      .arr blocks
  | .prim s => .prim s

/-- Conversation message of the Anthropic orchestrator
(`anthropic-client.ts`): the code only ever pushes user-role messages, but
the message type admits assistant turns as well. -/
inductive AMsg where
  | user (content : String)
  | assistant (content : String)
deriving DecidableEq, Repr

/-- Embedding of the initial conversation built by
`AnthropicClient.processQuery` (`anthropic-client.ts` lines 24-31): the
method's signature takes only the query, so the conversation seeded for
the first backend request is exactly the single new user turn. -/
def anthropicInitialMessages (query : String) : List AMsg :=
  [AMsg.user query]

/-- A requested tool call in an OpenAI response (`tool_calls` entry):
correlation id, tool identifier and the raw arguments string. -/
structure ToolCall where
  id : String
  name : String
  argumentsRaw : String
deriving DecidableEq, Repr

/-- Conversation message of the OpenAI orchestrator (`openai-client.ts`). -/
inductive OMsg where
  | user (content : String)
  | assistant (content : Option String) (tool_calls : List ToolCall)
  | tool (tool_call_id : String) (content : ToolContent)
deriving DecidableEq, Repr

/-- Embedding of the initial conversation built by
`OpenAIClient.processQuery` (`openai-client.ts` lines 23-29): the
signature takes only the query, so the seeded conversation is exactly the
single new user turn. -/
def openAIInitialMessages (query : String) : List OMsg :=
  [OMsg.user query]

/-- Role of a chat-history entry (`types.ts`). -/
inductive Role where
  | user
  | assistant
  | system
  | tool
deriving DecidableEq, Repr

/-- Chat-history entry (`types.ts` `ChatMessage`). -/
structure ChatMessage where
  role : Role
  content : String
deriving DecidableEq, Repr

/-- Embedding of `MAX_CHAT_TURNS` (`types.ts`). -/
def MAX_CHAT_TURNS : Nat := 30

/-- Index of the second user-role entry of the chat history, computed as in
`pruneHistory` (`index.ts`): scan from index 1 upward for the first
user-role entry; `none` models the sentinel value -1. -/
def secondUserMsgIndex (h : List ChatMessage) : Option Nat :=
  ((h.drop 1).findIdx? (fun m => m.role = Role.user)).map (· + 1)

/-- One while-loop pass of `pruneHistory` (`index.ts`), with structural
fuel: every iteration drops at least one entry, so fuel equal to the
history length makes the zero-fuel branch unreachable and the function
coincide with the unbounded while loop. -/
def pruneGo : Nat → List ChatMessage → List ChatMessage
  | 0, h => h
  | fuel + 1, h =>
    if h.length > MAX_CHAT_TURNS * 2 then
      match secondUserMsgIndex h with
      | some i => pruneGo fuel (h.drop i)
      | none => h
    else h

/-- Embedding of `pruneHistory` (`index.ts`): while the entry count exceeds
`MAX_CHAT_TURNS * 2`, drop everything before the second user-role entry;
stop if no second user entry exists. -/
def pruneHistory (h : List ChatMessage) : List ChatMessage :=
  pruneGo h.length h

/-- Embedding of `addToChatHistory` (`index.ts`): push the user query and
the assistant response, then prune. -/
def addToChatHistory (h : List ChatMessage) (query response : String) :
    List ChatMessage :=
  pruneHistory (h ++ [⟨Role.user, query⟩, ⟨Role.assistant, response⟩])

/-- Tool description returned by a server's `listTools` call. -/
structure ToolSpec where
  name : String
  description : String
  inputSchema : String
deriving DecidableEq, Repr

/-- Entry of the combined tool catalog (`this.tools` in `mcp-server.ts`):
the namespaced identifier, the description prefixed with the server id,
and the schema passed through. -/
structure CatalogTool where
  name : String
  description : String
  input_schema : String
deriving DecidableEq, Repr

/-- Embedding of `maxRetries` (`mcp-server.ts`). -/
def maxRetries : Nat := 5

/-- Embedding of `initialDelayMs` (`mcp-server.ts`). -/
def initialDelayMs : Nat := 1000

/-- Observable outcome of the `listTools` retry loop: the final result,
the number of `listTools` attempts performed, and the backoff delays
slept between consecutive attempts, in order. -/
structure RetryOutcome where
  result : Except String (List ToolSpec)
  attemptsMade : Nat
  delays : List Nat
deriving Repr

/-- Embedding of the retry loop of `connectToServers` (`mcp-server.ts`
lines 214-253): while `retryCount < maxRetries`, attempt `listTools`; on
failure increment `retryCount`, rethrow if the budget is exhausted,
otherwise sleep `initialDelayMs * 2 ^ retryCount` and loop. The attempt
function gives the outcome of each attempt (0-based). -/
def retryGo (attempt : Nat → Except String (List ToolSpec)) :
    Nat → Nat → Nat → List Nat → RetryOutcome
  | 0, _, attemptsMade, delaysRev => ⟨.error "no toolsResult", attemptsMade, delaysRev.reverse⟩
  | fuel + 1, retryCount, attemptsMade, delaysRev =>
    if retryCount < maxRetries then
      match attempt retryCount with
      | .ok ts => ⟨.ok ts, attemptsMade + 1, delaysRev.reverse⟩
      | .error e =>
        if retryCount + 1 ≥ maxRetries then
          ⟨.error e, attemptsMade + 1, delaysRev.reverse⟩
        else
          retryGo attempt fuel (retryCount + 1) (attemptsMade + 1)
            ((initialDelayMs * 2 ^ (retryCount + 1)) :: delaysRev)
    else
      ⟨.error "no toolsResult", attemptsMade, delaysRev.reverse⟩

/-- The retry loop entered with `retryCount = 0` as in the source; fuel
`maxRetries` keeps the zero-fuel branch unreachable, since the loop makes
at most `maxRetries` iterations. -/
def retryListTools (attempt : Nat → Except String (List ToolSpec)) : RetryOutcome :=
  retryGo attempt maxRetries 0 0 []

/-- Behavior of one configured server, abstracting the child process:
an invalid configuration entry (skipped), a transport/connect failure,
or a successful connect together with the outcome of each `listTools`
attempt. -/
inductive ServerBehavior where
  | invalidConfig
  | connectFail
  | connected (attempt : Nat → Except String (List ToolSpec))

/-- Client handle created for a server (`new Client` in `mcp-server.ts`,
named `mcp-client-cli-` followed by the server id). -/
def clientName (serverId : String) : String :=
  "mcp-client-cli-" ++ serverId

/-- In-memory state of `MCPServerManager` (`mcp-server.ts`): client map,
transport map, combined tool catalog and tool-to-server namespace map. -/
structure ManagerState where
  mcpClients : List (String × String)
  mcpTransports : List (String × String)
  tools : List CatalogTool
  toolServerMap : List (String × ServerInfo)
deriving DecidableEq, Repr

/-- The manager's initial state: all containers empty. -/
def initialManagerState : ManagerState := ⟨[], [], [], []⟩

/-- Embedding of `getMCPClient` (`mcp-server.ts`). -/
def getMCPClient (st : ManagerState) (serverId : String) : Option String :=
  mapGet st.mcpClients serverId

/-- Embedding of the per-tool registration loop of `connectToServers`
(`mcp-server.ts` lines 260-276): each server-local tool is recorded in the
namespace map under its namespaced identifier and turned into a catalog
entry whose description is prefixed with the server id. -/
def registerServerTools (toolServerMap : List (String × ServerInfo))
    (serverId : String) (specs : List ToolSpec) :
    List (String × ServerInfo) × List CatalogTool :=
  specs.foldl
    (fun acc t =>
      (mapSet acc.1 (uniqueToolName serverId t.name) ⟨serverId, t.name⟩,
       acc.2 ++ [⟨uniqueToolName serverId t.name,
                  "[" ++ serverId ++ "] " ++ t.description,
                  t.inputSchema⟩]))
    (toolServerMap, [])

/-- Per-server report of a `connectToServers` run, for stating properties
about attempts, delays and contributed tools. -/
structure ServerReport where
  serverId : String
  connectedOk : Bool
  attemptsMade : Nat
  delays : List Nat
  contributedTools : List CatalogTool
deriving Repr

/-- Embedding of one iteration of the server loop of `connectToServers`
(`mcp-server.ts` lines 119-291): invalid configurations are skipped;
connect failures leave the state unchanged; on a successful connect the
client and transport are stored first, then the catalog is retrieved with
retry; retry exhaustion is caught by the per-server handler and leaves the
client and transport registered but contributes no tools. -/
def connectStep (st : ManagerState) (serverId : String) (b : ServerBehavior) :
    ManagerState × ServerReport :=
  match b with
  | .invalidConfig => (st, ⟨serverId, false, 0, [], []⟩)
  | .connectFail => (st, ⟨serverId, false, 0, [], []⟩)
  | .connected attempt =>
    let st1 : ManagerState :=
      { st with
        mcpClients := mapSet st.mcpClients serverId (clientName serverId),
        mcpTransports := mapSet st.mcpTransports serverId ("transport-" ++ serverId) }
    let out := retryListTools attempt
    match out.result with
    | .error _ => (st1, ⟨serverId, false, out.attemptsMade, out.delays, []⟩)
    | .ok specs =>
      let reg := registerServerTools st1.toolServerMap serverId specs
      ({ st1 with toolServerMap := reg.1, tools := st1.tools ++ reg.2 },
       ⟨serverId, true, out.attemptsMade, out.delays, reg.2⟩)

/-- Embedding of the sequential server loop of `connectToServers`. -/
def connectLoop (st : ManagerState) :
    List (String × ServerBehavior) → ManagerState × List ServerReport
  | [] => (st, [])
  | c :: rest =>
    let step := connectStep st c.1 c.2
    let next := connectLoop step.1 rest
    (next.1, step.2 :: next.2)

/-- Embedding of `connectToServers` (`mcp-server.ts`) on a configuration
given as an ordered list of server id / behavior pairs. -/
def connectToServers (cfg : List (String × ServerBehavior)) :
    ManagerState × List ServerReport :=
  connectLoop initialManagerState cfg

/-- Outcome of closing one transport: success, an EPIPE error (expected
and swallowed during shutdown), or another error (logged, not raised). -/
inductive CloseOutcome where
  | ok
  | epipe
  | err (msg : String)

/-- One log line emitted during shutdown. -/
structure LogLine where
  level : String
  message : String
deriving DecidableEq, Repr

/-- Embedding of `closeConnections` (`mcp-server.ts` lines 307-331): every
transport is closed in order, EPIPE errors are swallowed and other close
errors are logged without stopping the loop, and afterwards the client
map, transport map, tool catalog and namespace map are all cleared. The
function is total: no close outcome makes it fail. -/
def closeConnections (st : ManagerState) (closeBehavior : String → CloseOutcome) :
    ManagerState × List LogLine :=
  let logs := st.mcpTransports.map (fun p =>
    match closeBehavior p.1 with
    | .ok => LogLine.mk "info" ("Closed connection to MCP server: " ++ p.1)
    | .epipe =>
      LogLine.mk "info"
        ("EPIPE error ignored when closing connection to MCP server: " ++ p.1)
    | .err m =>
      LogLine.mk "error"
        ("Error closing connection to MCP server " ++ p.1 ++ ": " ++ m))
  (initialManagerState, logs)

/-- Behavior of `mcpClient.callTool`: given the resolved server id, the
server-local tool name and the raw arguments, either a content value or a
thrown error message. -/
def CallToolFn : Type := String → String → String → Except String ToolContent

/-- JavaScript truthiness of an optional string (`msg.content` checks in
the OpenAI client): `undefined`, `null` and the empty string are falsy. -/
def jsTruthy (o : Option String) : Bool :=
  o.getD "" ≠ ""

/-- One OpenAI chat-completion response as consumed by `processOpenAI`:
the assistant message's `content` and `tool_calls`. -/
structure OResp where
  content : Option String
  tool_calls : List ToolCall
deriving DecidableEq, Repr

/-- Outcome of dispatching a single requested tool call in the OpenAI
orchestrator (`openai-client.ts` lines 110-166): the message appended to
the conversation, the entry pushed onto `finalText`, and the resolved
(server id, local name) target. -/
structure DispatchResult where
  message : OMsg
  logEntry : String
  resolved : String × String
deriving DecidableEq, Repr

/-- Embedding of one iteration of the tool-call loop in `processOpenAI`
(`openai-client.ts` lines 98-166): resolve the identifier, look up the
client; a missing client or a throwing `callTool` yields the
human-readable error tool turn instead of the result, and a successful
call yields a tool turn carrying the (possibly flattened) content. -/
def dispatchOne (callTool : CallToolFn) (toolServerMap : List (String × ServerInfo))
    (mcpClients : List (String × String)) (tc : ToolCall) : DispatchResult :=
  let r := resolveTool toolServerMap tc.name
  match mapGet mcpClients r.1 with
  | none =>
    let e := "No MCP client found for server ID: " ++ r.1
    { message := OMsg.tool tc.id (ToolContent.prim
        ("Error: " ++ e ++
         ". The tool call failed, please try a different approach or continue without this tool.")),
      logEntry := "[Error calling tool " ++ tc.name ++ ": " ++ e ++ "]",
      resolved := r }
  | some _ =>
    match callTool r.1 r.2 tc.argumentsRaw with
    | .ok content =>
      { message := OMsg.tool tc.id (flattenToolContent content),
        logEntry := "[Calling tool " ++ tc.name ++ " with args " ++ tc.argumentsRaw ++ "]",
        resolved := r }
    | .error e =>
      { message := OMsg.tool tc.id (ToolContent.prim
          ("Error: " ++ e ++
           ". The tool call failed, please try a different approach or continue without this tool.")),
        logEntry := "[Error calling tool " ++ tc.name ++ ": " ++ e ++ "]",
        resolved := r }

/-- Observable outcome of a completed `processOpenAI` run: the returned
string, the final conversation, the accumulated `finalText` entries and
the requested tool calls processed, each with its resolved target. -/
structure ORun where
  returned : String
  messages : List OMsg
  finalText : List String
  dispatched : List (ToolCall × (String × String))
deriving DecidableEq, Repr

/-- Embedding of `processOpenAI` (`openai-client.ts` lines 50-197): each
backend request consumes the next scripted response; an exhausted script
models a failing API call, whose exception propagates. A response with
truthy content and no tool calls terminates the loop; a response with
tool calls is appended as an assistant turn, every requested call is
dispatched in order, and the loop recurses on the grown conversation;
a response with falsy content and no tool calls returns the accumulated
text. -/
def processOpenAI (callTool : CallToolFn) (toolServerMap : List (String × ServerInfo))
    (mcpClients : List (String × String)) :
    List OResp → List OMsg → List String → List (ToolCall × (String × String)) →
    Except String ORun
  | [], _, _, _ => .error "OpenAI API call failed"
  | resp :: rest, messages, finalText, dispatched =>
    if jsTruthy resp.content && resp.tool_calls.isEmpty then
      .ok ⟨String.intercalate "\n" (finalText ++ [resp.content.getD ""]),
           messages, finalText ++ [resp.content.getD ""], dispatched⟩
    else if resp.tool_calls.isEmpty then
      .ok ⟨String.intercalate "\n" finalText, messages, finalText, dispatched⟩
    else
      processOpenAI callTool toolServerMap mcpClients rest
        (messages ++ OMsg.assistant resp.content resp.tool_calls ::
          resp.tool_calls.map (fun tc => (dispatchOne callTool toolServerMap mcpClients tc).message))
        (finalText ++
          resp.tool_calls.map (fun tc => (dispatchOne callTool toolServerMap mcpClients tc).logEntry))
        (dispatched ++
          resp.tool_calls.map (fun tc =>
            (tc, (dispatchOne callTool toolServerMap mcpClients tc).resolved)))

/-- Specification-level trace: the tool calls requested by every scripted
response up to (excluding) the first response without tool calls — the
calls the loop is expected to process. -/
def oProcessedSpec : List OResp → List ToolCall
  | [] => []
  | r :: rest => if r.tool_calls.isEmpty then [] else r.tool_calls ++ oProcessedSpec rest

/-- Specification-level termination test: the script contains a response
without tool calls before it is exhausted. -/
def oTerminates : List OResp → Bool
  | [] => false
  | r :: rest => if r.tool_calls.isEmpty then true else oTerminates rest

/-- One content block of an Anthropic response (`response.content`). -/
inductive ABlock where
  | text (t : String)
  | toolUse (name : String) (input : String)
deriving DecidableEq, Repr

/-- One Anthropic response as consumed by the Anthropic orchestrator. -/
structure AResp where
  content : List ABlock
deriving DecidableEq, Repr

/-- Stand-in for `JSON.stringify(result.content)` when quoting a tool
result inside a follow-up user message; the exact rendering is irrelevant
to the verified properties. -/
def stringifyContent : ToolContent → String
  | .prim s => s
  | .arr blocks => String.intercalate ", " (blocks.map (fun c => c.text.getD ""))

/-- Observable outcome of a completed Anthropic `processQuery` run. -/
structure ARun where
  returned : String
  messages : List AMsg
  finalText : List String
  processed : List (String × String)
  remainingScript : List AResp
deriving DecidableEq, Repr

/-- The error-path tail shared by the catch handler of the Anthropic
tool-use branch (`anthropic-client.ts` lines 103-144): push the error log
and the error user turn, then issue the follow-up request inside its own
try, swallowing a backend failure and appending a leading text block of a
successful follow-up. -/
def aErrorPath (name e : String) (script : List AResp) (messages : List AMsg)
    (finalText : List String) : List AResp × List AMsg × List String :=
  let finalText1 := finalText ++ ["[Error calling tool " ++ name ++ ": " ++ e ++ "]"]
  let messages1 := messages ++
    [AMsg.user ("Error when calling tool " ++ name ++ ": " ++ e ++
      ". Please try a different approach or continue without this tool.")]
  match script with
  | [] => ([], messages1, finalText1)
  | fu :: rest =>
    match fu.content.head? with
    | some (ABlock.text t) => (rest, messages1, finalText1 ++ [t])
    | _ => (rest, messages1, finalText1)

/-- The whole tool-use branch of the content loop of
`AnthropicClient.processQuery` for one block (`anthropic-client.ts` lines
51-144), without the loop itself: resolve the identifier, look up the
client and invoke the tool; on success push the calling log and the
tool-result user turn and issue the follow-up request (whose own failure
is caught by the surrounding catch and treated as a tool failure); on any
failure run the error path. Returns the remaining script, the grown
conversation and the grown `finalText`. -/
def aToolStep (callTool : CallToolFn) (toolServerMap : List (String × ServerInfo))
    (mcpClients : List (String × String)) (name input : String)
    (script : List AResp) (messages : List AMsg) (finalText : List String) :
    List AResp × List AMsg × List String :=
  let r := resolveTool toolServerMap name
  match mapGet mcpClients r.1 with
  | none =>
    aErrorPath name ("No MCP client found for server ID: " ++ r.1) script messages finalText
  | some _ =>
    match callTool r.1 r.2 input with
    | .error e => aErrorPath name e script messages finalText
    | .ok content =>
      let finalText1 := finalText ++
        ["[Calling tool " ++ name ++ " with args " ++ input ++ "]"]
      let messages1 := messages ++
        [AMsg.user ("Tool result for " ++ name ++ ": " ++ stringifyContent content)]
      match script with
      | [] =>
        -- the follow-up request itself throws; the surrounding catch
        -- treats it as a tool failure
        aErrorPath name "Anthropic API call failed" [] messages1 finalText1
      | fu :: rest =>
        match fu.content.head? with
        | some (ABlock.text t) => (rest, messages1, finalText1 ++ [t])
        | _ => (rest, messages1, finalText1)

/-- Embedding of the content loop of `AnthropicClient.processQuery`
(`anthropic-client.ts` lines 47-146): text blocks are pushed onto
`finalText`; each tool-use block of the first response is resolved and
invoked, its result (or error) re-submitted as a user turn, and one
follow-up request issued per block, of which only a leading text block is
consumed — tool-use blocks of follow-up responses are never dispatched. -/
def aHandleBlocks (callTool : CallToolFn) (toolServerMap : List (String × ServerInfo))
    (mcpClients : List (String × String)) :
    List ABlock → List AResp → List AMsg → List String → List (String × String) →
    List AResp × List AMsg × List String × List (String × String)
  | [], script, messages, finalText, processed => (script, messages, finalText, processed)
  | ABlock.text t :: bs, script, messages, finalText, processed =>
    aHandleBlocks callTool toolServerMap mcpClients bs script messages
      (finalText ++ [t]) processed
  | ABlock.toolUse name input :: bs, script, messages, finalText, processed =>
    let tail := aToolStep callTool toolServerMap mcpClients name input script messages finalText
    aHandleBlocks callTool toolServerMap mcpClients bs tail.1 tail.2.1 tail.2.2
      (processed ++ [(name, input)])

/-- Embedding of `AnthropicClient.processQuery` (`anthropic-client.ts`):
seed the conversation with the single user turn, issue the first backend
request (an exhausted script models a failing API call, which
propagates), run the content loop over the first response, and return the
joined `finalText`. -/
def anthropicProcessQuery (callTool : CallToolFn)
    (toolServerMap : List (String × ServerInfo)) (mcpClients : List (String × String))
    (query : String) (script : List AResp) : Except String ARun :=
  match script with
  | [] => .error "Anthropic API call failed"
  | r0 :: rest =>
    let out := aHandleBlocks callTool toolServerMap mcpClients r0.content rest
      (anthropicInitialMessages query) [] []
    .ok ⟨String.intercalate "\n" out.2.2.1, out.2.1, out.2.2.1, out.2.2.2, out.1⟩

/-- The tool-use blocks of a response's content, in order. -/
def toolUses : List ABlock → List (String × String)
  | [] => []
  | ABlock.text _ :: bs => toolUses bs
  | ABlock.toolUse n i :: bs => (n, i) :: toolUses bs

/-- The namespace-map component of the registration loop (`mcp-server.ts`
lines 262-268) run over a flat sequence of (server id, local tool name)
registrations, in order: each pair is stored under its derived identifier
with `Map.prototype.set` overwrite semantics. -/
def registerAll (regs : List (String × String)) : List (String × ServerInfo) :=
  regs.foldl (fun m r => mapSet m (uniqueToolName r.1 r.2) (ServerInfo.mk r.1 r.2)) []

/-- The catalog entries contributed by one server's tool list
(`mcp-server.ts` lines 260-276). -/
def catalogOf (serverId : String) (specs : List ToolSpec) : List CatalogTool :=
  specs.map (fun t =>
    ⟨uniqueToolName serverId t.name,
     "[" ++ serverId ++ "] " ++ t.description,
     t.inputSchema⟩)

/-- The catalog contribution of one configured server: its namespaced
tools when catalog retrieval succeeds within the retry budget, nothing
otherwise. -/
def serverToolsOf : String × ServerBehavior → List CatalogTool
  | (sid, ServerBehavior.connected attempt) =>
    match (retryListTools attempt).result with
    | .ok specs => catalogOf sid specs
    | .error _ => []
  | (_, ServerBehavior.invalidConfig) => []
  | (_, ServerBehavior.connectFail) => []

/-- A chat history made of alternating (user, assistant) entry pairs,
oldest first. -/
def turnPairs : List (String × String) → List ChatMessage
  | [] => []
  | (q, r) :: ps => ⟨Role.user, q⟩ :: ⟨Role.assistant, r⟩ :: turnPairs ps

/-- Attempt behavior of a server whose catalog call fails with the
initialization-race error on every attempt. -/
def raceFailAttempt : Nat → Except String (List ToolSpec) :=
  fun _ => Except.error "Received request before initialization was complete"

/-- Attempt behavior of a healthy server exposing one tool named
`search`. -/
def searchOkAttempt : Nat → Except String (List ToolSpec) :=
  fun _ => Except.ok [⟨"search", "d", "s"⟩]

/-- Configuration with two servers `a` and `b`, each exposing a tool
literally named `search`. -/
def abSearchCfg : List (String × ServerBehavior) :=
  [("a", ServerBehavior.connected searchOkAttempt),
   ("b", ServerBehavior.connected searchOkAttempt)]

/-- Namespace map holding the single registration of tool `search` of
server `a`. -/
def tsmA : List (String × ServerInfo) := registerAll [("a", "search")]

/-- Client map holding the client of server `a`. -/
def clientsA : List (String × String) := [("a", clientName "a")]

/-- Tool behavior that always succeeds with the text `ok`. -/
def cfOkA : CallToolFn := fun _ _ _ => Except.ok (ToolContent.prim "ok")

/-- Tool behavior that always throws with message `boom`. -/
def cfFailBoom : CallToolFn := fun _ _ _ => Except.error "boom"

/-- Backend script whose first and second responses each request a tool
call and whose third response is plain text. -/
def aTwoToolScript : List AResp :=
  [⟨[ABlock.toolUse "a_search" "argsA"]⟩,
   ⟨[ABlock.toolUse "a_search" "argsB"]⟩,
   ⟨[ABlock.text "done"]⟩]

/-- A model-requested tool call targeting `a_search`. -/
def tcW : ToolCall := ⟨"1", "a_search", "argsA"⟩

/-- OpenAI backend script that requests one tool call and then answers
with the plain text `done`. -/
def oScriptW : List OResp := [OResp.mk none [tcW], OResp.mk (some "done") []]

/-! Helper lemmas about the JS map model. -/

theorem find?_map_set {β : Type} (m : List (String × β)) (k : String) (v : β) :
    List.find? (fun p => p.1 = k) (m.map (fun p => if p.1 = k then (k, v) else p)) =
      if m.any (fun p => p.1 = k) then some (k, v) else none := by
  induction m with
  | nil => simp
  | cons p t ih =>
    by_cases h : p.1 = k
    · simp [List.find?_cons, List.any_cons, h, ih]
    · have hd : decide (p.1 = k) = false := by simp [h]
      simp only [List.map_cons, List.find?_cons, List.any_cons, if_neg h, hd, ih,
        Bool.false_or]

theorem find?_map_set_ne {β : Type} (m : List (String × β)) (k' k : String) (v : β)
    (h : k' ≠ k) :
    List.find? (fun p => p.1 = k) (m.map (fun p => if p.1 = k' then (k', v) else p)) =
      List.find? (fun p => p.1 = k) m := by
  induction m with
  | nil => simp
  | cons p t ih =>
    by_cases hp : p.1 = k'
    · have h1 : ¬ p.1 = k := fun hk => h (hp ▸ hk)
      simp [List.find?_cons, hp, h1, h, ih]
    · by_cases hk : p.1 = k <;> simp [List.find?_cons, hp, hk, Ne.symm h, ih]

theorem mapGet_mapSet_self {β : Type} (m : List (String × β)) (k : String) (v : β) :
    mapGet (mapSet m k v) k = some v := by
  unfold mapGet mapSet
  by_cases h : m.any (fun p => p.1 = k)
  · rw [if_pos h, find?_map_set, if_pos h]
    rfl
  · have hnone : List.find? (fun p => p.1 = k) m = none := by
      rw [List.find?_eq_none]
      intro x hx
      simp only [List.any_eq_true, not_exists, not_and] at h
      simpa using fun hh => h x hx (by simpa using hh)
    rw [if_neg h, List.find?_append, hnone]
    simp [List.find?_cons]

theorem mapGet_mapSet_ne {β : Type} (m : List (String × β)) (k' k : String) (v : β)
    (h : k' ≠ k) :
    mapGet (mapSet m k' v) k = mapGet m k := by
  unfold mapGet mapSet
  by_cases ha : m.any (fun p => p.1 = k')
  · rw [if_pos ha, find?_map_set_ne m k' k v h]
  · rw [if_neg ha, List.find?_append]
    simp [List.find?_cons, h, Option.or_none]

theorem mapGet_foldl_mapSet_not_mem {α β : Type} (key : α → String) (val : α → β)
    (l : List α) (m : List (String × β)) (k : String) (hk : ∀ a ∈ l, key a ≠ k) :
    mapGet (l.foldl (fun m a => mapSet m (key a) (val a)) m) k = mapGet m k := by
  induction l generalizing m with
  | nil => rfl
  | cons b t ih =>
    simp only [List.foldl_cons]
    rw [ih (mapSet m (key b) (val b)) (fun a ha => hk a (List.mem_cons_of_mem b ha)),
        mapGet_mapSet_ne m (key b) k (val b) (hk b (List.mem_cons_self b t))]

theorem mapGet_foldl_mapSet_self {α β : Type} (key : α → String) (val : α → β)
    (l : List α) (m : List (String × β)) (a : α) (ha : a ∈ l)
    (hnd : (l.map key).Nodup) :
    mapGet (l.foldl (fun m x => mapSet m (key x) (val x)) m) (key a) = some (val a) := by
  induction l generalizing m with
  | nil => cases ha
  | cons b t ih =>
    simp only [List.map_cons, List.nodup_cons, List.mem_map] at hnd
    rcases List.mem_cons.mp ha with hab | hat
    · subst hab
      simp only [List.foldl_cons]
      rw [mapGet_foldl_mapSet_not_mem key val t (mapSet m (key a) (val a)) (key a)
            (fun x hx hkx => hnd.1 ⟨x, hx, hkx⟩)]
      exact mapGet_mapSet_self m (key a) (val a)
    · simp only [List.foldl_cons]
      exact ih (mapSet m (key b) (val b)) hat hnd.2

/-! Injectivity of the namespaced identifier for underscore-free server
ids, and structural lemmas about `connectToServers`. -/

theorem append_underscore_inj :
    ∀ (l1 l2 r1 r2 : List Char), ('_' : Char) ∉ l1 → ('_' : Char) ∉ l2 →
      l1 ++ '_' :: r1 = l2 ++ '_' :: r2 → l1 = l2 ∧ r1 = r2 := by
  intro l1
  induction l1 with
  | nil =>
    intro l2 r1 r2 _ h2 he
    cases l2 with
    | nil => simpa using he
    | cons c t =>
      exfalso
      simp only [List.nil_append, List.cons_append, List.cons.injEq] at he
      exact h2 (he.1 ▸ List.mem_cons_self c t)
  | cons c t ih =>
    intro l2 r1 r2 h1 h2 he
    cases l2 with
    | nil =>
      exfalso
      simp only [List.cons_append, List.nil_append, List.cons.injEq] at he
      exact h1 (he.1 ▸ List.mem_cons_self c t)
    | cons c2 t2 =>
      simp only [List.cons_append, List.cons.injEq] at he
      have hm := ih t2 r1 r2 (fun hx => h1 (List.mem_cons_of_mem c hx))
        (fun hx => h2 (List.mem_cons_of_mem c2 hx)) he.2
      exact ⟨by rw [he.1, hm.1], hm.2⟩

theorem uniqueToolName_inj (s1 n1 s2 n2 : String)
    (h1 : ('_' : Char) ∉ s1.data) (h2 : ('_' : Char) ∉ s2.data)
    (he : uniqueToolName s1 n1 = uniqueToolName s2 n2) : s1 = s2 ∧ n1 = n2 := by
  have hd := congrArg String.data he
  simp only [uniqueToolName, String.data_append, List.append_assoc] at hd
  have hd2 : s1.data ++ '_' :: n1.data = s2.data ++ '_' :: n2.data := by
    simpa using hd
  have hm := append_underscore_inj s1.data s2.data n1.data n2.data h1 h2 hd2
  exact ⟨String.ext hm.1, String.ext hm.2⟩

theorem registerServerTools_eq (m : List (String × ServerInfo)) (serverId : String)
    (specs : List ToolSpec) :
    registerServerTools m serverId specs =
      (specs.foldl
        (fun m t => mapSet m (uniqueToolName serverId t.name) ⟨serverId, t.name⟩) m,
       catalogOf serverId specs) := by
  suffices haux : ∀ (specs : List ToolSpec) (m : List (String × ServerInfo))
      (c : List CatalogTool),
      specs.foldl
        (fun acc t =>
          (mapSet acc.1 (uniqueToolName serverId t.name) ⟨serverId, t.name⟩,
           acc.2 ++ [⟨uniqueToolName serverId t.name,
                      "[" ++ serverId ++ "] " ++ t.description,
                      t.inputSchema⟩]))
        (m, c) =
      (specs.foldl
        (fun m t => mapSet m (uniqueToolName serverId t.name) ⟨serverId, t.name⟩) m,
       c ++ catalogOf serverId specs) by
    have h := haux specs m []
    simpa [registerServerTools] using h
  intro specs
  induction specs with
  | nil => intro m c; simp [catalogOf]
  | cons t ts ih =>
    intro m c
    simp only [List.foldl_cons, ih, catalogOf, List.map_cons]
    simp

theorem connectLoop_tools (cfg : List (String × ServerBehavior)) :
    ∀ st : ManagerState,
      (connectLoop st cfg).1.tools = st.tools ++ cfg.flatMap serverToolsOf := by
  induction cfg with
  | nil => intro st; simp [connectLoop]
  | cons c rest ih =>
    intro st
    obtain ⟨sid, b⟩ := c
    cases b with
    | invalidConfig => simp [connectLoop, connectStep, ih, serverToolsOf]
    | connectFail => simp [connectLoop, connectStep, ih, serverToolsOf]
    | connected attempt =>
      cases hres : (retryListTools attempt).result with
      | error e =>
        simp [connectLoop, connectStep, hres, ih, serverToolsOf]
      | ok specs =>
        simp [connectLoop, connectStep, hres, ih, serverToolsOf,
          registerServerTools_eq]

theorem connectStep_clients_other (st : ManagerState) (k sid : String)
    (b : ServerBehavior) (h : k ≠ sid) :
    mapGet (connectStep st k b).1.mcpClients sid = mapGet st.mcpClients sid := by
  cases b with
  | invalidConfig => rfl
  | connectFail => rfl
  | connected attempt =>
    cases hres : (retryListTools attempt).result with
    | error e => simp [connectStep, hres, mapGet_mapSet_ne _ _ _ _ h]
    | ok specs => simp [connectStep, hres, mapGet_mapSet_ne _ _ _ _ h]

theorem connectStep_transports_other (st : ManagerState) (k sid : String)
    (b : ServerBehavior) (h : k ≠ sid) :
    mapGet (connectStep st k b).1.mcpTransports sid = mapGet st.mcpTransports sid := by
  cases b with
  | invalidConfig => rfl
  | connectFail => rfl
  | connected attempt =>
    cases hres : (retryListTools attempt).result with
    | error e => simp [connectStep, hres, mapGet_mapSet_ne _ _ _ _ h]
    | ok specs => simp [connectStep, hres, mapGet_mapSet_ne _ _ _ _ h]

theorem connectStep_connected_self (st : ManagerState) (sid : String)
    (attempt : Nat → Except String (List ToolSpec)) :
    mapGet (connectStep st sid (ServerBehavior.connected attempt)).1.mcpClients sid =
        some (clientName sid) ∧
    mapGet (connectStep st sid (ServerBehavior.connected attempt)).1.mcpTransports sid =
        some ("transport-" ++ sid) := by
  cases hres : (retryListTools attempt).result with
  | error e => simp [connectStep, hres, mapGet_mapSet_self]
  | ok specs => simp [connectStep, hres, mapGet_mapSet_self]

theorem connectLoop_clients_not_mem (cfg : List (String × ServerBehavior)) :
    ∀ (st : ManagerState) (sid : String), sid ∉ cfg.map Prod.fst →
      mapGet (connectLoop st cfg).1.mcpClients sid = mapGet st.mcpClients sid ∧
      mapGet (connectLoop st cfg).1.mcpTransports sid = mapGet st.mcpTransports sid := by
  induction cfg with
  | nil => intro st sid _; exact ⟨rfl, rfl⟩
  | cons c rest ih =>
    intro st sid hmem
    simp only [List.map_cons, List.mem_cons, not_or] at hmem
    have hstep := ih (connectStep st c.1 c.2).1 sid hmem.2
    simp only [connectLoop]
    refine ⟨?_, ?_⟩
    · rw [hstep.1, connectStep_clients_other st c.1 sid c.2 (fun hh => hmem.1 hh.symm)]
    · rw [hstep.2, connectStep_transports_other st c.1 sid c.2 (fun hh => hmem.1 hh.symm)]

theorem connectLoop_clients_mem (cfg : List (String × ServerBehavior)) :
    ∀ (st : ManagerState) (sid : String)
      (attempt : Nat → Except String (List ToolSpec)),
      (cfg.map Prod.fst).Nodup →
      (sid, ServerBehavior.connected attempt) ∈ cfg →
      mapGet (connectLoop st cfg).1.mcpClients sid = some (clientName sid) ∧
      mapGet (connectLoop st cfg).1.mcpTransports sid = some ("transport-" ++ sid) := by
  induction cfg with
  | nil => intro st sid attempt _ hmem; cases hmem
  | cons c rest ih =>
    intro st sid attempt hnd hmem
    simp only [List.map_cons, List.nodup_cons] at hnd
    rcases List.mem_cons.mp hmem with hc | hrest
    · have hsid : c.1 = sid := by rw [← hc]
      have hnotin : sid ∉ rest.map Prod.fst := hsid ▸ hnd.1
      have hpres := connectLoop_clients_not_mem rest (connectStep st c.1 c.2).1 sid hnotin
      simp only [connectLoop]
      rw [hpres.1, hpres.2, ← hc]
      exact connectStep_connected_self st sid attempt
    · simp only [connectLoop]
      exact ih (connectStep st c.1 c.2).1 sid attempt hnd.2 hrest

theorem retryListTools_allFail (attempt : Nat → Except String (List ToolSpec))
    (hfail : ∀ i, ∃ e, attempt i = Except.error e) :
    (retryListTools attempt).attemptsMade = 5 ∧
    (retryListTools attempt).delays = [2000, 4000, 8000, 16000] ∧
    ∀ ts, (retryListTools attempt).result ≠ Except.ok ts := by
  obtain ⟨e0, h0⟩ := hfail 0
  obtain ⟨e1, h1⟩ := hfail 1
  obtain ⟨e2, h2⟩ := hfail 2
  obtain ⟨e3, h3⟩ := hfail 3
  obtain ⟨e4, h4⟩ := hfail 4
  simp [retryListTools, retryGo, maxRetries, initialDelayMs, h0, h1, h2, h3, h4]

theorem serverToolsOf_allFail (sid : String)
    (attempt : Nat → Except String (List ToolSpec))
    (hfail : ∀ i, ∃ e, attempt i = Except.error e) :
    serverToolsOf (sid, ServerBehavior.connected attempt) = [] := by
  have h := (retryListTools_allFail attempt hfail).2.2
  cases hres : (retryListTools attempt).result with
  | error e => simp [serverToolsOf, hres]
  | ok ts => exact absurd hres (h ts)

/-! Lemmas about the orchestrator loops. -/

theorem processOpenAI_dispatched (callTool : CallToolFn)
    (tsm : List (String × ServerInfo)) (clients : List (String × String)) :
    ∀ (script : List OResp) (msgs : List OMsg) (ft : List String)
      (d : List (ToolCall × (String × String))),
      (processOpenAI callTool tsm clients script msgs ft d).toOption.map ORun.dispatched =
        if oTerminates script then
          some (d ++ (oProcessedSpec script).map
            (fun tc => (tc, (dispatchOne callTool tsm clients tc).resolved)))
        else none := by
  intro script
  induction script with
  | nil => intro msgs ft d; simp [processOpenAI, oTerminates, Except.toOption]
  | cons r rest ih =>
    intro msgs ft d
    cases hE : r.tool_calls.isEmpty with
    | true =>
      cases hT : jsTruthy r.content with
      | true =>
        simp [processOpenAI, hE, hT, oTerminates, oProcessedSpec, Except.toOption]
      | false =>
        simp [processOpenAI, hE, hT, oTerminates, oProcessedSpec, Except.toOption]
    | false =>
      simp only [processOpenAI, hE, Bool.and_false, Bool.false_eq_true, if_false,
        oTerminates, oProcessedSpec, if_neg]
      rw [ih]
      cases hterm : oTerminates rest <;> simp [List.map_append]

theorem processOpenAI_isOk (callTool : CallToolFn)
    (tsm : List (String × ServerInfo)) (clients : List (String × String))
    (script : List OResp) (msgs : List OMsg) (ft : List String)
    (d : List (ToolCall × (String × String))) :
    (processOpenAI callTool tsm clients script msgs ft d).toOption.isSome =
      oTerminates script := by
  have h := processOpenAI_dispatched callTool tsm clients script msgs ft d
  cases hres : (processOpenAI callTool tsm clients script msgs ft d) with
  | error e =>
    rw [hres] at h
    cases hterm : oTerminates script
    · simp [Except.toOption]
    · rw [hterm] at h; simp [Except.toOption] at h
  | ok run =>
    rw [hres] at h
    cases hterm : oTerminates script
    · rw [hterm] at h; simp [Except.toOption] at h
    · simp [Except.toOption]

theorem processOpenAI_returned (callTool : CallToolFn)
    (tsm : List (String × ServerInfo)) (clients : List (String × String)) :
    ∀ (script : List OResp) (msgs : List OMsg) (ft : List String)
      (d : List (ToolCall × (String × String))),
      (processOpenAI callTool tsm clients script msgs ft d).toOption.map ORun.returned =
        (processOpenAI callTool tsm clients script msgs ft d).toOption.map
          (fun run => String.intercalate "\n" run.finalText) := by
  intro script
  induction script with
  | nil => intro msgs ft d; simp [processOpenAI, Except.toOption]
  | cons r rest ih =>
    intro msgs ft d
    cases hE : r.tool_calls.isEmpty with
    | true =>
      cases hT : jsTruthy r.content with
      | true => simp [processOpenAI, hE, hT, Except.toOption]
      | false => simp [processOpenAI, hE, hT, Except.toOption]
    | false =>
      simp only [processOpenAI, hE, Bool.and_false, Bool.false_eq_true, if_false]
      exact ih _ _ _

theorem aHandleBlocks_processed (callTool : CallToolFn)
    (tsm : List (String × ServerInfo)) (clients : List (String × String)) :
    ∀ (blocks : List ABlock) (script : List AResp) (msgs : List AMsg)
      (ft : List String) (proc : List (String × String)),
      (aHandleBlocks callTool tsm clients blocks script msgs ft proc).2.2.2 =
        proc ++ toolUses blocks := by
  intro blocks
  induction blocks with
  | nil => intro script msgs ft proc; simp [aHandleBlocks, toolUses]
  | cons b bs ih =>
    intro script msgs ft proc
    cases b with
    | text t => simp [aHandleBlocks, toolUses, ih]
    | toolUse name input =>
      simp only [aHandleBlocks, toolUses]
      rw [ih]
      simp

/-! Lemmas about the chat history store. -/

theorem turnPairs_length (ps : List (String × String)) :
    (turnPairs ps).length = 2 * ps.length := by
  induction ps with
  | nil => rfl
  | cons p t ih =>
    obtain ⟨q, r⟩ := p
    simp [turnPairs, ih]
    omega

theorem turnPairs_append (ps qs : List (String × String)) :
    turnPairs (ps ++ qs) = turnPairs ps ++ turnPairs qs := by
  induction ps with
  | nil => rfl
  | cons p t ih =>
    obtain ⟨q, r⟩ := p
    simp [turnPairs, ih]

theorem secondUser_turnPairs (p q : String × String) (rest : List (String × String)) :
    secondUserMsgIndex (turnPairs (p :: q :: rest)) = some 2 := by
  obtain ⟨q1, r1⟩ := p
  obtain ⟨q2, r2⟩ := q
  simp [secondUserMsgIndex, turnPairs, List.findIdx?_cons]

theorem pruneGo_turnPairs :
    ∀ (fuel : Nat) (ps : List (String × String)), 2 * ps.length ≤ fuel →
      ∃ n, pruneGo fuel (turnPairs ps) = turnPairs (ps.drop n) ∧
        (ps.drop n).length ≤ MAX_CHAT_TURNS := by
  intro fuel
  induction fuel with
  | zero =>
    intro ps hle
    have hps : ps = [] := by
      cases ps with
      | nil => rfl
      | cons p t => simp only [List.length_cons] at hle; omega
    subst hps
    exact ⟨0, rfl, by simp [MAX_CHAT_TURNS]⟩
  | succ fuel ih =>
    intro ps hle
    by_cases hbig : (turnPairs ps).length > MAX_CHAT_TURNS * 2
    · rw [turnPairs_length] at hbig
      rcases ps with _ | ⟨p, ps1⟩
      · exfalso; simp [MAX_CHAT_TURNS] at hbig
      rcases ps1 with _ | ⟨q, rest⟩
      · exfalso
        simp only [List.length_cons, List.length_nil, MAX_CHAT_TURNS] at hbig
        omega
      · have hstep : pruneGo (fuel + 1) (turnPairs (p :: q :: rest)) =
            pruneGo fuel (turnPairs (q :: rest)) := by
          have hlen : (turnPairs (p :: q :: rest)).length > MAX_CHAT_TURNS * 2 := by
            rw [turnPairs_length]; exact hbig
          have hdrop : (turnPairs (p :: q :: rest)).drop 2 = turnPairs (q :: rest) := by
            obtain ⟨q1, r1⟩ := p
            rfl
          simp only [pruneGo, if_pos hlen, secondUser_turnPairs, hdrop]
        rw [hstep]
        have hle2 : 2 * (q :: rest).length ≤ fuel := by
          simp only [List.length_cons] at hle ⊢
          omega
        obtain ⟨n, heq, hn⟩ := ih (q :: rest) hle2
        exact ⟨n + 1, by simpa [List.drop_succ_cons] using heq,
          by simpa [List.drop_succ_cons] using hn⟩
    · refine ⟨0, ?_, ?_⟩
      · simp only [pruneGo, List.drop_zero]
        rw [if_neg hbig]
      · rw [turnPairs_length] at hbig
        simp only [List.drop_zero]
        omega

theorem pruneHistory_no_second_user (h : List ChatMessage)
    (hnone : secondUserMsgIndex h = none) : pruneHistory h = h := by
  unfold pruneHistory
  cases hL : h.length with
  | zero => rfl
  | succ n =>
    simp only [pruneGo, hnone]
    split <;> rfl

/-! Claim theorems. -/

/-- C1, counterexample: derived global tool identifiers are not distinct
for every pair of distinct (server id, local tool name) registrations.
Server `a_b` with tool `search` and server `a` with tool `b_search` are
distinct registrations deriving the same identifier `a_b_search`, and
after both are registered the tool-server map resolves that identifier to
the later pair only, so the first registration does not resolve to its
own (server id, local tool name) pair. -/
theorem c1_counterexample :
    uniqueToolName "a_b" "search" = uniqueToolName "a" "b_search" ∧
    (("a_b", "search") : String × String) ≠ ("a", "b_search") ∧
    mapGet (registerAll [("a_b", "search"), ("a", "b_search")])
        (uniqueToolName "a_b" "search") = some (ServerInfo.mk "a" "b_search") ∧
    some (ServerInfo.mk "a" "b_search") ≠ some (ServerInfo.mk "a_b" "search") := by
  refine ⟨rfl, by decide, rfl, by decide⟩

/-- C1, amended: when the server ids involved contain no underscore, the
derived identifiers of distinct registrations are distinct, and the
tool-server map resolves each identifier to its own (server id, local
tool name) pair; in particular two servers `a` and `b` each exposing a
tool named `search` yield the two distinct catalog entries `a_search` and
`b_search`, each resolving to its own server. -/
theorem c1_amended (regs : List (String × String))
    (hfree : ∀ r ∈ regs, ('_' : Char) ∉ r.1.data) (hnd : regs.Nodup) :
    (regs.map (fun r => uniqueToolName r.1 r.2)).Nodup ∧
    (∀ r ∈ regs,
      mapGet (registerAll regs) (uniqueToolName r.1 r.2) = some (ServerInfo.mk r.1 r.2)) ∧
    ((connectToServers abSearchCfg).1.tools.map CatalogTool.name =
        ["a_search", "b_search"] ∧
     ("a_search" : String) ≠ "b_search" ∧
     mapGet (connectToServers abSearchCfg).1.toolServerMap "a_search" =
        some (ServerInfo.mk "a" "search") ∧
     mapGet (connectToServers abSearchCfg).1.toolServerMap "b_search" =
        some (ServerInfo.mk "b" "search")) := by
  have hinj : (regs.map (fun r => uniqueToolName r.1 r.2)).Nodup := by
    refine List.Nodup.map_on ?_ hnd
    intro x hx y hy hxy
    have h := uniqueToolName_inj x.1 x.2 y.1 y.2 (hfree x hx) (hfree y hy) hxy
    exact Prod.ext h.1 h.2
  refine ⟨hinj, ?_, by decide, by decide, by decide, by decide⟩
  intro r hr
  exact mapGet_foldl_mapSet_self (fun r => uniqueToolName r.1 r.2)
    (fun r => ServerInfo.mk r.1 r.2) regs [] r hr hinj

/-- C1, witness: the amended theorem applied to the two-server
registration sequence of the spec scenario. -/
theorem c1_amended_witness :
    (([("a", "search"), ("b", "search")] : List (String × String)).map
        (fun r => uniqueToolName r.1 r.2)).Nodup ∧
    (∀ r ∈ ([("a", "search"), ("b", "search")] : List (String × String)),
      mapGet (registerAll [("a", "search"), ("b", "search")])
          (uniqueToolName r.1 r.2) = some (ServerInfo.mk r.1 r.2)) ∧
    ((connectToServers abSearchCfg).1.tools.map CatalogTool.name =
        ["a_search", "b_search"] ∧
     ("a_search" : String) ≠ "b_search" ∧
     mapGet (connectToServers abSearchCfg).1.toolServerMap "a_search" =
        some (ServerInfo.mk "a" "search") ∧
     mapGet (connectToServers abSearchCfg).1.toolServerMap "b_search" =
        some (ServerInfo.mk "b" "search")) :=
  c1_amended [("a", "search"), ("b", "search")] (by decide) (by decide)

/-- C2, counterexample: against a backend script whose second response
also requests a tool call, the Anthropic orchestrator run completes, the
second response's request (`a_search` with `argsB`) is present in that
response, yet it is never processed — only the first response's call is —
and the loop stops while the remaining script still holds the plain-text
response, so tool requests of subsequent responses are not processed the
way the first response's are. -/
theorem c2_counterexample :
    toolUses (aTwoToolScript.get ⟨1, by decide⟩).content = [("a_search", "argsB")] ∧
    (anthropicProcessQuery cfOkA tsmA clientsA "q" aTwoToolScript).toOption.map
        ARun.processed = some [("a_search", "argsA")] ∧
    ("a_search", "argsB") ∉ [(("a_search" : String), ("argsA" : String))] ∧
    (anthropicProcessQuery cfOkA tsmA clientsA "q" aTwoToolScript).toOption.map
        ARun.remainingScript = some [AResp.mk [ABlock.text "done"]] := by
  refine ⟨rfl, rfl, by decide, rfl⟩

/-- C2, amended: the OpenAI orchestrator resends the updated conversation
and repeats the cycle, processing the tool requests of every subsequent
response exactly as those of the first: the processed calls of a run are
the concatenation of the requested calls of every scripted response up to
the first response without tool requests, at which the run returns (and
the run succeeds exactly when such a response exists). The Anthropic
orchestrator instead processes only the first response's tool requests:
its processed calls are exactly the tool-use blocks of the first
response, whatever the rest of the script contains. -/
theorem c2_amended (callTool : CallToolFn) (tsm : List (String × ServerInfo))
    (clients : List (String × String)) (script : List OResp) (msgs : List OMsg)
    (ft : List String) (d : List (ToolCall × (String × String))) (q : String)
    (r0 : AResp) (rest : List AResp) :
    ((processOpenAI callTool tsm clients script msgs ft d).toOption.map ORun.dispatched =
      if oTerminates script then
        some (d ++ (oProcessedSpec script).map
          (fun tc => (tc, (dispatchOne callTool tsm clients tc).resolved)))
      else none) ∧
    ((processOpenAI callTool tsm clients script msgs ft d).toOption.isSome =
      oTerminates script) ∧
    ((anthropicProcessQuery callTool tsm clients q (r0 :: rest)).toOption.map
      ARun.processed = some (toolUses r0.content)) := by
  refine ⟨processOpenAI_dispatched callTool tsm clients script msgs ft d,
    processOpenAI_isOk callTool tsm clients script msgs ft d, ?_⟩
  simp [anthropicProcessQuery, Except.toOption,
    aHandleBlocks_processed callTool tsm clients r0.content rest]

/-- C3, counterexample: for a server failing every attempt with the
initialization-race error, the waits between consecutive attempts are
2000ms, 4000ms, 8000ms and 16000ms — the backoff does not start at the
fixed 1-second base delay, because the delay is computed as
`initialDelayMs * 2 ^ retryCount` after `retryCount` was already
incremented, so the first wait is already doubled. -/
theorem c3_counterexample :
    (retryListTools raceFailAttempt).delays = [2000, 4000, 8000, 16000] ∧
    (retryListTools raceFailAttempt).delays.head? = some 2000 ∧
    (2000 : Nat) ≠ 1000 := by
  refine ⟨by decide, by decide, by decide⟩

/-- C3, amended: a server whose catalog retrieval fails on every attempt
gets exactly 5 `listTools` attempts, the waits between consecutive
attempts being `initialDelayMs * 2 ^ k` for k = 1..4 (2s, 4s, 8s, 16s —
doubling each attempt, but starting at twice the 1-second base delay);
the server is then excluded from the combined catalog (it contributes no
tools), while the catalog is exactly the concatenation of the
contributions of all servers, so tools of other, successfully connected
servers remain. -/
theorem c3_amended (attempt : Nat → Except String (List ToolSpec))
    (hfail : ∀ i, ∃ e, attempt i = Except.error e) :
    (retryListTools attempt).attemptsMade = 5 ∧
    (retryListTools attempt).delays = [2000, 4000, 8000, 16000] ∧
    (∀ ts, (retryListTools attempt).result ≠ Except.ok ts) ∧
    (∀ sid, serverToolsOf (sid, ServerBehavior.connected attempt) = []) ∧
    (∀ cfg : List (String × ServerBehavior),
      (connectToServers cfg).1.tools = cfg.flatMap serverToolsOf) := by
  obtain ⟨h5, hdel, hok⟩ := retryListTools_allFail attempt hfail
  refine ⟨h5, hdel, hok, fun sid => serverToolsOf_allFail sid attempt hfail,
    fun cfg => ?_⟩
  simpa [initialManagerState] using connectLoop_tools cfg initialManagerState

/-- C3, witness: the amended theorem applied to the always-failing
initialization-race behavior. -/
theorem c3_amended_witness :
    (retryListTools raceFailAttempt).attemptsMade = 5 ∧
    (retryListTools raceFailAttempt).delays = [2000, 4000, 8000, 16000] ∧
    (∀ ts, (retryListTools raceFailAttempt).result ≠ Except.ok ts) ∧
    (∀ sid, serverToolsOf (sid, ServerBehavior.connected raceFailAttempt) = []) ∧
    (∀ cfg : List (String × ServerBehavior),
      (connectToServers cfg).1.tools = cfg.flatMap serverToolsOf) :=
  c3_amended raceFailAttempt (fun _ => ⟨_, rfl⟩)

/-- C4, confirmed, for both orchestrators. OpenAI: a throwing tool
invocation never propagates out of the run — whether it succeeds depends
only on the backend script, never on tool behavior (1); the failing
call's tool-result turn is replaced by the human-readable error turn
asking the model to try a different approach (2); every requested call of
the turn is dispatched in order, failures included, after which the loop
resumes with the grown conversation (3); the run returns the joined
accumulated text (4), and a final plain-text response's content is
returned as its last piece (5). Anthropic: against a nonempty backend
script the run always returns successfully, whatever the tool behavior
(6); a failing invocation diverts the tool-use branch into the error path
(7), which appends the human-readable error user turn to the working
conversation in place of the tool result (8); the content loop then
continues with the next block (9), processing every requested tool-use
block of the turn, failures included (10); and the run returns the joined
accumulated text (11). -/
theorem c4_confirmed (callTool : CallToolFn) (tsm : List (String × ServerInfo))
    (clients : List (String × String)) (script : List OResp) (msgs : List OMsg)
    (ft : List String) (d : List (ToolCall × (String × String)))
    (tc : ToolCall) (e : String) (q : String) (ar0 : AResp)
    (arest ascript : List AResp) (name input e2 : String) (amsgs : List AMsg)
    (aft : List String) (aproc : List (String × String)) (ablocks : List ABlock) :
    ((processOpenAI callTool tsm clients script msgs ft d).toOption.isSome =
      oTerminates script) ∧
    ((mapGet clients (resolveTool tsm tc.name).1).isSome = true →
      callTool (resolveTool tsm tc.name).1 (resolveTool tsm tc.name).2
          tc.argumentsRaw = Except.error e →
      (dispatchOne callTool tsm clients tc).message = OMsg.tool tc.id
        (ToolContent.prim ("Error: " ++ e ++
          ". The tool call failed, please try a different approach or continue without this tool."))) ∧
    (∀ (resp : OResp) (rest : List OResp), resp.tool_calls.isEmpty = false →
      processOpenAI callTool tsm clients (resp :: rest) msgs ft d =
        processOpenAI callTool tsm clients rest
          (msgs ++ OMsg.assistant resp.content resp.tool_calls ::
            resp.tool_calls.map (fun t => (dispatchOne callTool tsm clients t).message))
          (ft ++ resp.tool_calls.map
            (fun t => (dispatchOne callTool tsm clients t).logEntry))
          (d ++ resp.tool_calls.map
            (fun t => (t, (dispatchOne callTool tsm clients t).resolved)))) ∧
    ((processOpenAI callTool tsm clients script msgs ft d).toOption.map ORun.returned =
      (processOpenAI callTool tsm clients script msgs ft d).toOption.map
        (fun run => String.intercalate "\n" run.finalText)) ∧
    (∀ (c : String) (rest : List OResp), c ≠ "" →
      (processOpenAI callTool tsm clients (OResp.mk (some c) [] :: rest) msgs ft d
        ).toOption.map ORun.returned =
      some (String.intercalate "\n" (ft ++ [c]))) ∧
    ((anthropicProcessQuery callTool tsm clients q (ar0 :: arest)).toOption.isSome =
      true) ∧
    ((mapGet clients (resolveTool tsm name).1).isSome = true →
      callTool (resolveTool tsm name).1 (resolveTool tsm name).2 input =
        Except.error e2 →
      aToolStep callTool tsm clients name input ascript amsgs aft =
        aErrorPath name e2 ascript amsgs aft) ∧
    ((aErrorPath name e2 ascript amsgs aft).2.1 =
      amsgs ++ [AMsg.user ("Error when calling tool " ++ name ++ ": " ++ e2 ++
        ". Please try a different approach or continue without this tool.")]) ∧
    (aHandleBlocks callTool tsm clients (ABlock.toolUse name input :: ablocks)
        ascript amsgs aft aproc =
      aHandleBlocks callTool tsm clients ablocks
        (aToolStep callTool tsm clients name input ascript amsgs aft).1
        (aToolStep callTool tsm clients name input ascript amsgs aft).2.1
        (aToolStep callTool tsm clients name input ascript amsgs aft).2.2
        (aproc ++ [(name, input)])) ∧
    ((aHandleBlocks callTool tsm clients ablocks ascript amsgs aft aproc).2.2.2 =
      aproc ++ toolUses ablocks) ∧
    ((anthropicProcessQuery callTool tsm clients q ascript).toOption.map
        ARun.returned =
      (anthropicProcessQuery callTool tsm clients q ascript).toOption.map
        (fun run => String.intercalate "\n" run.finalText)) := by
  refine ⟨processOpenAI_isOk callTool tsm clients script msgs ft d, ?_, ?_, ?_, ?_,
    ?_, ?_, ?_, rfl, aHandleBlocks_processed callTool tsm clients ablocks ascript
      amsgs aft aproc, ?_⟩
  · intro hs hc
    unfold dispatchOne
    cases hm : mapGet clients (resolveTool tsm tc.name).1 with
    | none => rw [hm] at hs; simp at hs
    | some c => simp [hm, hc]
  · intro resp rest hE
    simp [processOpenAI, hE]
  · exact processOpenAI_returned callTool tsm clients script msgs ft d
  · intro c rest hc
    have ht : jsTruthy (some c) = true := by simp [jsTruthy, hc]
    simp [processOpenAI, ht, Except.toOption]
  · simp [anthropicProcessQuery, Except.toOption]
  · intro hs hc
    unfold aToolStep
    cases hm : mapGet clients (resolveTool tsm name).1 with
    | none => rw [hm] at hs; simp at hs
    | some c => simp [hm, hc]
  · unfold aErrorPath
    cases ascript with
    | nil => rfl
    | cons fu rest =>
      cases hh : fu.content.head? with
      | none => simp [hh]
      | some blk => cases blk <;> simp [hh]
  · cases ascript with
    | nil => rfl
    | cons r0 rest => simp [anthropicProcessQuery, Except.toOption]

/-- C4, witness: the confirmed theorem applied to runs whose single
requested tool call throws `boom`. OpenAI: the run still succeeds, the
error turn stands in for the result, and the model's final text `done` is
returned. Anthropic: the run against the one-tool-use response succeeds,
the failing invocation takes the error path, the error user turn is
appended in place of the tool result, and the block is still processed. -/
theorem c4_witness :
    ((processOpenAI cfFailBoom tsmA clientsA oScriptW [] [] []).toOption.isSome =
      oTerminates oScriptW) ∧
    ((dispatchOne cfFailBoom tsmA clientsA tcW).message = OMsg.tool "1"
      (ToolContent.prim
        "Error: boom. The tool call failed, please try a different approach or continue without this tool.")) ∧
    (processOpenAI cfFailBoom tsmA clientsA oScriptW [] [] [] =
      processOpenAI cfFailBoom tsmA clientsA [OResp.mk (some "done") []]
        ([] ++ OMsg.assistant none [tcW] ::
          [tcW].map (fun t => (dispatchOne cfFailBoom tsmA clientsA t).message))
        ([] ++ [tcW].map (fun t => (dispatchOne cfFailBoom tsmA clientsA t).logEntry))
        ([] ++ [tcW].map (fun t => (t, (dispatchOne cfFailBoom tsmA clientsA t).resolved)))) ∧
    ((processOpenAI cfFailBoom tsmA clientsA [OResp.mk (some "done") []] [] [] []
      ).toOption.map ORun.returned =
      some (String.intercalate "\n" ([] ++ ["done"]))) ∧
    ((anthropicProcessQuery cfFailBoom tsmA clientsA "q"
        (AResp.mk [ABlock.toolUse "a_search" "argsA"] :: [])).toOption.isSome =
      true) ∧
    (aToolStep cfFailBoom tsmA clientsA "a_search" "argsA" [] [AMsg.user "q"] [] =
      aErrorPath "a_search" "boom" [] [AMsg.user "q"] []) ∧
    ((aErrorPath "a_search" "boom" [] [AMsg.user "q"] []).2.1 =
      [AMsg.user "q"] ++ [AMsg.user ("Error when calling tool " ++ "a_search" ++
        ": " ++ "boom" ++
        ". Please try a different approach or continue without this tool.")]) ∧
    ((aHandleBlocks cfFailBoom tsmA clientsA [ABlock.toolUse "a_search" "argsA"]
        [] [AMsg.user "q"] [] []).2.2.2 =
      [] ++ toolUses [ABlock.toolUse "a_search" "argsA"]) := by
  have h := c4_confirmed cfFailBoom tsmA clientsA oScriptW [] [] [] tcW "boom" "q"
    (AResp.mk [ABlock.toolUse "a_search" "argsA"]) [] [] "a_search" "argsA" "boom"
    [AMsg.user "q"] [] [] [ABlock.toolUse "a_search" "argsA"]
  exact ⟨h.1, h.2.1 (by decide) rfl,
    h.2.2.1 (OResp.mk none [tcW]) [OResp.mk (some "done") []] (by decide),
    h.2.2.2.2.1 "done" [] (by decide),
    h.2.2.2.2.2.1,
    h.2.2.2.2.2.2.1 (by decide) rfl,
    h.2.2.2.2.2.2.2.1,
    h.2.2.2.2.2.2.2.2.2.1⟩

/-- C5, code bug: the orchestrator clients seed the working conversation
with only the new user turn. `MCPClient.processQuery` passes
`this.chatHistory` to the client, but both clients' `processQuery`
signatures take only the query, so with prior history
`[user "hi", assistant "hello"]` and query `next` the conversation sent
on the first request is `[user "next"]`, not the history followed by the
new user turn. -/
theorem c5_code_bug :
    anthropicInitialMessages "next" = [AMsg.user "next"] ∧
    openAIInitialMessages "next" = [OMsg.user "next"] ∧
    anthropicInitialMessages "next" ≠
      [AMsg.user "hi", AMsg.assistant "hello", AMsg.user "next"] := by
  refine ⟨rfl, rfl, by decide⟩

/-- C6, counterexample: an identifier missing from the namespace map is
dispatched with server id `default` — the literal string, not the
identifier itself — while only the local tool name falls back to the
identifier; so the fallback is not (identifier, identifier). -/
theorem c6_counterexample :
    resolveTool [] "ghost" = ("default", "ghost") ∧
    (("default", "ghost") : String × String) ≠ ("ghost", "ghost") ∧
    (dispatchOne cfOkA [] [] (ToolCall.mk "1" "ghost" "args")).resolved =
      ("default", "ghost") := by
  refine ⟨rfl, by decide, rfl⟩

/-- C6, amended: a model-issued tool identifier not present in the
namespace map is dispatched with the fixed server id `default` and with
the identifier itself as the local tool name, rather than failing the
turn. -/
theorem c6_amended (tsm : List (String × ServerInfo))
    (clients : List (String × String)) (callTool : CallToolFn) (tc : ToolCall)
    (h : mapGet tsm tc.name = none) :
    resolveTool tsm tc.name = ("default", tc.name) ∧
    (dispatchOne callTool tsm clients tc).resolved = ("default", tc.name) := by
  have hr : resolveTool tsm tc.name = ("default", tc.name) := by
    simp [resolveTool, h]
  refine ⟨hr, ?_⟩
  simp only [dispatchOne]
  cases hm : mapGet clients (resolveTool tsm tc.name).1 with
  | none => simpa using hr
  | some c =>
    cases hc : callTool (resolveTool tsm tc.name).1 (resolveTool tsm tc.name).2
        tc.argumentsRaw with
    | ok content => simpa using hr
    | error e => simpa using hr

/-- C6, witness: the amended theorem applied to an unmapped identifier
`phantom`. -/
theorem c6_amended_witness :
    resolveTool [] "phantom" = ("default", "phantom") ∧
    (dispatchOne cfOkA [] [] (ToolCall.mk "2" "phantom" "args")).resolved =
      ("default", "phantom") :=
  c6_amended [] [] cfOkA (ToolCall.mk "2" "phantom" "args") rfl

/-- C7, confirmed: for a chat history of alternating (user, assistant)
entry pairs, appending a turn and pruning leaves a history that is a
suffix of whole turns of the appended history, never exceeds
`2 * MAX_CHAT_TURNS` entries, and never starts with an assistant entry;
and when no second user-role entry exists, pruning leaves the history
unchanged even if it is over budget. -/
theorem c7_confirmed (ps : List (String × String)) (q r : String) :
    (∃ n, addToChatHistory (turnPairs ps) q r = turnPairs ((ps ++ [(q, r)]).drop n) ∧
      (addToChatHistory (turnPairs ps) q r).length ≤ 2 * MAX_CHAT_TURNS) ∧
    (∀ m, (addToChatHistory (turnPairs ps) q r).head? = some m → m.role = Role.user) ∧
    (∀ h : List ChatMessage, secondUserMsgIndex h = none → pruneHistory h = h) := by
  have hpair : turnPairs ps ++ [⟨Role.user, q⟩, ⟨Role.assistant, r⟩] =
      turnPairs (ps ++ [(q, r)]) := by
    rw [turnPairs_append]
    rfl
  obtain ⟨n, heq, hn⟩ := pruneGo_turnPairs (turnPairs (ps ++ [(q, r)])).length
    (ps ++ [(q, r)]) (turnPairs_length (ps ++ [(q, r)])).ge
  have haddEq : addToChatHistory (turnPairs ps) q r =
      turnPairs ((ps ++ [(q, r)]).drop n) := by
    unfold addToChatHistory pruneHistory
    rw [hpair]
    exact heq
  refine ⟨⟨n, haddEq, ?_⟩, ?_, pruneHistory_no_second_user⟩
  · rw [haddEq, turnPairs_length]
    simp only [MAX_CHAT_TURNS] at hn ⊢
    omega
  · intro m hm
    rw [haddEq] at hm
    cases hdst : (ps ++ [(q, r)]).drop n with
    | nil => rw [hdst] at hm; simp [turnPairs] at hm
    | cons p t =>
      obtain ⟨q2, r2⟩ := p
      rw [hdst] at hm
      simp only [turnPairs, List.head?_cons, Option.some.injEq] at hm
      rw [← hm]

/-- C7, witness: the confirmed theorem applied to the one-pair history
`[(a, b)]` with appended turn `(q, r)`, together with an over-long
history without a second user entry that pruning leaves unchanged. -/
theorem c7_witness :
    (∃ n, addToChatHistory (turnPairs [("a", "b")]) "q" "r" =
        turnPairs (([("a", "b")] ++ [("q", "r")]).drop n) ∧
      (addToChatHistory (turnPairs [("a", "b")]) "q" "r").length ≤ 2 * MAX_CHAT_TURNS) ∧
    (ChatMessage.mk Role.user "a").role = Role.user ∧
    pruneHistory [ChatMessage.mk Role.assistant "x"] = [ChatMessage.mk Role.assistant "x"] :=
  ⟨(c7_confirmed [("a", "b")] "q" "r").1,
   (c7_confirmed [("a", "b")] "q" "r").2.1 (ChatMessage.mk Role.user "a") (by decide),
   (c7_confirmed [("a", "b")] "q" "r").2.2 [ChatMessage.mk Role.assistant "x"] (by decide)⟩

/-- C8, confirmed: `closeConnections` is total for every close behavior
(no close outcome raises), empties the client map, transport map, tool
catalog and namespace map, closes every transport (one log line per
transport), and a second call in succession is a no-op on the already
empty state. -/
theorem c8_confirmed (st : ManagerState) (f g : String → CloseOutcome) :
    ((closeConnections st f).1.mcpClients = [] ∧
     (closeConnections st f).1.mcpTransports = [] ∧
     (closeConnections st f).1.tools = [] ∧
     (closeConnections st f).1.toolServerMap = []) ∧
    (closeConnections (closeConnections st f).1 g).1 = (closeConnections st f).1 ∧
    ((closeConnections st f).2.length = st.mcpTransports.length) ∧
    ((closeConnections (closeConnections st f).1 g).2 = []) := by
  refine ⟨⟨rfl, rfl, rfl, rfl⟩, rfl, by simp [closeConnections], rfl⟩

/-- C9, confirmed: a server whose transport connects but whose catalog
retrieval fails on every attempt keeps its client and transport
registered in the connection maps (they are stored before the retry loop
and never removed on failure): `getMCPClient` afterwards returns its
client, while the server contributes nothing to the combined catalog. -/
theorem c9_confirmed (cfg : List (String × ServerBehavior)) (sid : String)
    (attempt : Nat → Except String (List ToolSpec))
    (hnd : (cfg.map Prod.fst).Nodup)
    (hmem : (sid, ServerBehavior.connected attempt) ∈ cfg)
    (hfail : ∀ i, ∃ e, attempt i = Except.error e) :
    getMCPClient (connectToServers cfg).1 sid = some (clientName sid) ∧
    mapGet (connectToServers cfg).1.mcpTransports sid = some ("transport-" ++ sid) ∧
    serverToolsOf (sid, ServerBehavior.connected attempt) = [] ∧
    (connectToServers cfg).1.tools = cfg.flatMap serverToolsOf := by
  have h := connectLoop_clients_mem cfg initialManagerState sid attempt hnd hmem
  refine ⟨h.1, h.2, serverToolsOf_allFail sid attempt hfail, ?_⟩
  simpa [initialManagerState] using connectLoop_tools cfg initialManagerState

/-- C9, witness: the confirmed theorem applied to a single server `a`
whose every catalog attempt fails with the initialization-race error. -/
theorem c9_witness :
    getMCPClient
        (connectToServers [("a", ServerBehavior.connected raceFailAttempt)]).1 "a" =
      some (clientName "a") ∧
    mapGet (connectToServers
        [("a", ServerBehavior.connected raceFailAttempt)]).1.mcpTransports "a" =
      some ("transport-" ++ "a") ∧
    serverToolsOf ("a", ServerBehavior.connected raceFailAttempt) = [] ∧
    (connectToServers [("a", ServerBehavior.connected raceFailAttempt)]).1.tools =
      [("a", ServerBehavior.connected raceFailAttempt)].flatMap serverToolsOf :=
  c9_confirmed [("a", ServerBehavior.connected raceFailAttempt)] "a" raceFailAttempt
    (by simp) (List.mem_singleton.mpr rfl) (fun _ => ⟨_, rfl⟩)

/-- C10, confirmed: the OpenAI orchestrator's flattening decision inspects
only the first element of an array content value — it flattens exactly
when the first element's type is `text`, whatever the rest of the array
holds; when flattening, every element is mapped to its `text` field (the
JS `undefined` value, modelled as `none`, for non-text elements) and the
mapped array is joined with newlines; otherwise the content passes
through unchanged. In the mixed array `[text a, image]` the image block
contributes the undefined value, which the join renders as an empty
string, giving `"a\n"`. -/
theorem c10_confirmed (b : ContentBlock) (bs bs2 : List ContentBlock) (s : String) :
    ((∃ t, flattenToolContent (ToolContent.arr (b :: bs)) = ToolContent.prim t) ↔
      b.type = "text") ∧
    ((∃ t, flattenToolContent (ToolContent.arr (b :: bs)) = ToolContent.prim t) ↔
      (∃ t, flattenToolContent (ToolContent.arr (b :: bs2)) = ToolContent.prim t)) ∧
    (b.type = "text" →
      flattenToolContent (ToolContent.arr (b :: bs)) =
        ToolContent.prim (jsJoinNewline (mappedTextFields (b :: bs)))) ∧
    (b.type ≠ "text" →
      flattenToolContent (ToolContent.arr (b :: bs)) = ToolContent.arr (b :: bs)) ∧
    (flattenToolContent (ToolContent.arr []) = ToolContent.arr []) ∧
    (flattenToolContent (ToolContent.prim s) = ToolContent.prim s) ∧
    (mappedTextFields [ContentBlock.mk "text" (some "a"), ContentBlock.mk "image" none] =
      [some "a", none] ∧
     flattenToolContent (ToolContent.arr
        [ContentBlock.mk "text" (some "a"), ContentBlock.mk "image" none]) =
      ToolContent.prim "a\n") := by
  have hiff : ∀ l : List ContentBlock,
      (∃ t, flattenToolContent (ToolContent.arr (b :: l)) = ToolContent.prim t) ↔
        b.type = "text" := by
    intro l
    by_cases hb : b.type = "text" <;> simp [flattenToolContent, hb]
  refine ⟨hiff bs, (hiff bs).trans (hiff bs2).symm, ?_, ?_, by decide, rfl,
    by decide, by decide⟩
  · intro hb; simp [flattenToolContent, hb]
  · intro hb; simp [flattenToolContent, hb]

/-- C10, witness: the confirmed theorem applied to the mixed array whose
first element is a text block and to an array whose first element is an
image block. -/
theorem c10_witness :
    flattenToolContent (ToolContent.arr
        [ContentBlock.mk "text" (some "a"), ContentBlock.mk "image" none]) =
      ToolContent.prim (jsJoinNewline (mappedTextFields
        [ContentBlock.mk "text" (some "a"), ContentBlock.mk "image" none])) ∧
    flattenToolContent (ToolContent.arr [ContentBlock.mk "image" none]) =
      ToolContent.arr [ContentBlock.mk "image" none] :=
  ⟨(c10_confirmed (ContentBlock.mk "text" (some "a")) [ContentBlock.mk "image" none]
      [] "z").2.2.1 rfl,
   (c10_confirmed (ContentBlock.mk "image" none) [] [] "z").2.2.2.1 (by decide)⟩

end MCP
